/-
Verification of the aoc-2023 repository against its specification.

Shallow embedding conventions:
* Rust strings are modelled as `List Char`; all inputs accepted by the
  relevant nom parsers are ASCII, so one char corresponds to one byte.
* `usize`/`u64` are modelled as `Nat`, `i64`/`isize` as `Int`; none of the
  embedded computations approach the machine-word bounds on the inputs the
  parsers admit, so no wrap-around modelling is needed.
* Fallible operations (panics, `unwrap`, `assert!`, `unimplemented!`) are
  modelled with `Option`: `none` is a panic.
* nom parsers are modelled as functions `List Char → Option (α × List Char)`
  returning the parsed value and the remaining input; `none` is a parse error.
-/
import Mathlib

set_option linter.unusedVariables false

namespace Aoc2023

/-! ## A model of the nom parser combinators used by the embedded days -/

namespace Nom

/-- A nom parser: consumes a prefix of the input, returns value and rest. -/
def Parser (α : Type) : Type := List Char → Option (α × List Char)

/-- `nom::combinator::map` -/
def pmap (p : Parser α) (f : α → β) : Parser β := fun inp =>
  (p inp).map (fun r => (f r.1, r.2))

/-- `nom::character::complete::char` -/
def charP (c : Char) : Parser Char := fun inp =>
  match inp with
  | [] => none
  | d :: rest => if d = c then some (c, rest) else none

/-- `nom::character::complete::one_of` -/
def oneOf (cs : List Char) : Parser Char := fun inp =>
  match inp with
  | [] => none
  | d :: rest => if cs.contains d then some (d, rest) else none

/-- `nom::character::complete::none_of` -/
def noneOf (cs : List Char) : Parser Char := fun inp =>
  match inp with
  | [] => none
  | d :: rest => if cs.contains d then none else some (d, rest)

/-- Take the longest nonempty run of characters satisfying `pred`
(the shape of nom's `alpha1`, `alphanumeric1`, `digit1`, `space1`). -/
def takeWhile1 (pred : Char → Bool) : Parser (List Char) := fun inp =>
  match inp.takeWhile pred with
  | [] => none
  | c :: cs => some (c :: cs, inp.drop (c :: cs).length)

/-- `nom::character::complete::alpha1` (ASCII letters). -/
def alpha1 : Parser (List Char) :=
  takeWhile1 (fun c => (decide ('a' ≤ c) && decide (c ≤ 'z')) ||
                       (decide ('A' ≤ c) && decide (c ≤ 'Z')))

/-- `nom::character::complete::alphanumeric1` (ASCII letters and digits). -/
def alphanumeric1 : Parser (List Char) :=
  takeWhile1 (fun c => (decide ('a' ≤ c) && decide (c ≤ 'z')) ||
                       (decide ('A' ≤ c) && decide (c ≤ 'Z')) ||
                       (decide ('0' ≤ c) && decide (c ≤ '9')))

/-- `nom::character::complete::digit1` (ASCII digits). -/
def digit1 : Parser (List Char) :=
  takeWhile1 (fun c => decide ('0' ≤ c) && decide (c ≤ '9'))

/-- `nom::character::complete::space1` (spaces and tabs). -/
def space1 : Parser (List Char) :=
  takeWhile1 (fun c => decide (c = ' ') || decide (c = '\t'))

/-- `nom::character::complete::line_ending`: `"\n"` or `"\r\n"`. -/
def lineEnding : Parser (List Char) := fun inp =>
  match inp with
  | '\n' :: rest => some (['\n'], rest)
  | '\r' :: '\n' :: rest => some (['\r', '\n'], rest)
  | _ => none

/-- `nom::bytes::complete::tag` -/
def tag (s : List Char) : Parser (List Char) := fun inp =>
  if inp.take s.length = s then some (s, inp.drop s.length) else none

/-- `nom::combinator::opt` -/
def opt (p : Parser α) : Parser (Option α) := fun inp =>
  match p inp with
  | some (a, rest) => some (some a, rest)
  | none => some (none, inp)

/-- Decimal value of a digit run. -/
def digitsVal (ds : List Char) : Nat :=
  ds.foldl (fun acc d => acc * 10 + (d.toNat - 48)) 0

/-- `nom::character::complete::u8`: digits, failing on values above 255. -/
def u8P : Parser Nat := fun inp =>
  match digit1 inp with
  | none => none
  | some (ds, rest) =>
      if digitsVal ds ≤ 255 then some (digitsVal ds, rest) else none

/-- `nom::character::complete::i64`: optional sign, digits, failing outside
the i64 range. -/
def i64P : Parser Int := fun inp =>
  let signed : Option (Bool × List Char) :=
    match inp with
    | '-' :: rest => some (true, rest)
    | '+' :: rest => some (false, rest)
    | _ => some (false, inp)
  match signed with
  | none => none
  | some (neg, inp1) =>
    match digit1 inp1 with
    | none => none
    | some (ds, rest) =>
        if neg then
          if digitsVal ds ≤ 2 ^ 63 then some (-(digitsVal ds : Int), rest) else none
        else
          if digitsVal ds ≤ 2 ^ 63 - 1 then some ((digitsVal ds : Int), rest) else none

/-- Loop of `many1`/`many0`: nom errors out when the inner parser succeeds
without consuming input (infinite-loop protection); fuel decreases every
iteration and exceeds the input length, so it never runs out. -/
def manyGo (p : Parser α) : Nat → List α → Parser (List α)
  | 0, _, _ => none
  | fuel + 1, acc, inp =>
    match p inp with
    | none => some (acc.reverse, inp)
    | some (a, rest) =>
        if rest = inp then none
        else manyGo p fuel (a :: acc) rest

/-- `nom::multi::many1` -/
def many1 (p : Parser α) : Parser (List α) := fun inp =>
  match p inp with
  | none => none
  | some (a, rest) =>
      if rest = inp then none
      else manyGo p (rest.length + 1) [a] rest

/-- Loop of `separated_list0`/`separated_list1`: after the first item, repeat
(separator, item); nom errors out when a (separator, item) pair consumes
nothing. -/
def sepGo (sep : Parser σ) (p : Parser α) : Nat → List α → Parser (List α)
  | 0, _, _ => none
  | fuel + 1, acc, inp =>
    match sep inp with
    | none => some (acc.reverse, inp)
    | some (_, inp1) =>
      match p inp1 with
      | none => some (acc.reverse, inp)
      | some (a, inp2) =>
          if inp2 = inp then none
          else sepGo sep p fuel (a :: acc) inp2

/-- `nom::multi::separated_list1` -/
def separatedList1 (sep : Parser σ) (p : Parser α) : Parser (List α) := fun inp =>
  match p inp with
  | none => none
  | some (a, rest) => sepGo sep p (rest.length + 1) [a] rest

/-- `nom::multi::separated_list0` -/
def separatedList0 (sep : Parser σ) (p : Parser α) : Parser (List α) := fun inp =>
  match p inp with
  | none => some ([], inp)
  | some (a, rest) => sepGo sep p (rest.length + 1) [a] rest

end Nom

/-! ## Day 1 (`src/days/day01.rs`) -/

namespace Day01

open Nom

/-- `Day01::parse`: `separated_list0(line_ending, map(alphanumeric1, to_string))`. -/
def parse : Parser (List (List Char)) :=
  separatedList0 lineEnding (pmap alphanumeric1 id)

/-- `char::is_ascii_digit` -/
def isAsciiDigit (c : Char) : Bool := decide ('0' ≤ c) && decide (c ≤ '9')

/-- `ch.to_digit(10).unwrap()` for an ASCII digit. -/
def toDigit (c : Char) : Nat := c.toNat - 48

/-- `Day01::part_1`: first and last ASCII digit of each line. -/
def part_1 (input : List (List Char)) : Nat :=
  (input.map (fun l =>
    let digits := l.filterMap (fun ch =>
      if isAsciiDigit ch then some (toDigit ch) else none)
    (digits.headD 0) * 10 + (digits.getLastD 0))).sum

/-- The spelled-out digit match of `Day01::part_2` on the suffix `line[i..]`
(`starts_with` checks, in source order). -/
def wordDigit (s : List Char) : Option Nat :=
  if List.isPrefixOf ("one".toList) s then some 1
  else if List.isPrefixOf ("two".toList) s then some 2
  else if List.isPrefixOf ("three".toList) s then some 3
  else if List.isPrefixOf ("four".toList) s then some 4
  else if List.isPrefixOf ("five".toList) s then some 5
  else if List.isPrefixOf ("six".toList) s then some 6
  else if List.isPrefixOf ("seven".toList) s then some 7
  else if List.isPrefixOf ("eight".toList) s then some 8
  else if List.isPrefixOf ("nine".toList) s then some 9
  else none

/-- The digit list of one line in `Day01::part_2`: each position contributes
its ASCII digit, or the spelled-out digit starting there (`&line[i..]` is the
suffix at position `i`; the parser only admits ASCII, so byte and char
indices agree). -/
def part2Digits : List Char → List Nat
  | [] => []
  | c :: rest =>
    if isAsciiDigit c then toDigit c :: part2Digits rest
    else
      match wordDigit (c :: rest) with
      | some d => d :: part2Digits rest
      | none => part2Digits rest

/-- `Day01::part_2` -/
def part_2 (input : List (List Char)) : Nat :=
  (input.map (fun line =>
    let digits := part2Digits line
    (digits.headD 0) * 10 + (digits.getLastD 0))).sum

/-- The part-1 example input of the embedded day01 tests. -/
def exInput1 : String := "1abc2\npqr3stu8vwx\na1b2c3d4e5f\ntreb7uchet"

/-- The part-2 example input of the embedded day01 tests. -/
def exInput2 : String :=
  "two1nine\neightwothree\nabcone2threexyz\nxtwone3four\n4nineeightseven2\nzoneight234\n7pqrstsixteen"

end Day01

/-! ## Option-monad helpers (Rust iterator pipelines whose body can panic) -/

/-- `iter().map(f).collect()` where `f` can panic: `none` when any call panics. -/
def mapOption (f : α → Option β) : List α → Option (List β)
  | [] => some []
  | a :: rest =>
    match f a, mapOption f rest with
    | some b, some bs => some (b :: bs)
    | _, _ => none

/-- A `for` loop over a list threading a state, whose body can panic. -/
def foldlOption (f : β → α → Option β) : β → List α → Option β
  | b, [] => some b
  | b, a :: rest =>
    match f b a with
    | none => none
    | some b2 => foldlOption f b2 rest

/-! ## Day 9 (`src/days/day09.rs`) -/

namespace Day09

open Nom

/-- `Day09::parse`: `separated_list0(line_ending, separated_list1(space1, i64))`. -/
def parse : Parser (List (List Int)) :=
  separatedList0 lineEnding (separatedList1 space1 i64P)

/-- The `tuple_windows` difference list of `extrapolate`. -/
def diffs (l : List Int) : List Int := (l.zip l.tail).map (fun p => p.2 - p.1)

/-- Popping one list off the stack of `extrapolate`:
`extrapolated = list.first().unwrap() - extrapolated` for part 2, or
`extrapolated += list.last().unwrap()` for part 1 (`none` is the `unwrap`
panic on an empty list, which never fires on the lists pushed). -/
def popStep (part2 : Bool) (l : List Int) (e : Int) : Option Int :=
  if part2 then (l.head?).map (fun h => h - e)
  else (l.getLast?).map (fun t => e + t)

/-- The loop of `extrapolate`, recursing on the difference list: `Err(None)`
from `all_equal_value` (an empty difference list) hits
`unimplemented!("empty list")`, modelled as `none`; a constant nonempty
difference list breaks out with the common value; otherwise the difference
list is pushed onto the stack. Popping the stack applies `popStep` on the way
back up, ending with the original sensor list. Each recursion shortens the
list by one, so the fuel `sensor.length` given by `extrapolate` never runs
out before the loop ends (when it would run out, the list is empty and the
source panics as well, so `none` is the faithful answer there too). -/
def extrapolateGo (part2 : Bool) : Nat → List Int → Option Int
  | 0, _ => none
  | fuel + 1, l =>
    match diffs l with
    | [] => none
    | v :: vs =>
      if vs.all (fun x => decide (x = v)) then popStep part2 l v
      else (extrapolateGo part2 fuel (v :: vs)).bind (popStep part2 l)

/-- `extrapolate` -/
def extrapolate (sensor : List Int) (part2 : Bool) : Option Int :=
  extrapolateGo part2 sensor.length sensor

/-- `Day09::part_1` -/
def part_1 (input : List (List Int)) : Option Int :=
  (mapOption (fun sensor => extrapolate sensor false) input).map (fun l => l.sum)

/-- `Day09::part_2` -/
def part_2 (input : List (List Int)) : Option Int :=
  (mapOption (fun sensor => extrapolate sensor true) input).map (fun l => l.sum)

end Day09

/-! ## Day 5 (`src/days/day05.rs`): `range_overlap` -/

namespace Day05

/-- `std::ops::Range<u64>` -/
structure Range64 where
  start : Nat
  «end» : Nat
deriving DecidableEq

/-- `range_overlap`: find the overlap between two ranges. -/
def range_overlap (first second : Range64) : Option Range64 :=
  if first.«end» ≥ second.start ∧ first.start ≤ second.«end» then
    if first.start < second.start then
      if first.«end» > second.«end» then some second
      else some ⟨second.start, first.«end»⟩
    else if second.«end» > first.«end» then some first
    else some ⟨first.start, second.«end»⟩
  else none

end Day05

/-! ## Day 25 (`src/days/day25.rs`) -/

namespace Day25

/-- `petgraph::prelude::UnGraph<(), ()>`: node indices `0..nodeCount`, an
edge list (parallel edges allowed, each of weight 1). -/
structure UnGraph where
  nodeCount : Nat
  edges : List (Nat × Nat)
deriving DecidableEq

/-- Number of edges crossing the node partition `(p, complement)`. -/
def cutWeight (g : UnGraph) (p : List Nat) : Nat :=
  (g.edges.filter (fun e => p.contains e.1 != p.contains e.2)).length

/-- The nonempty proper subsets of the node set (one side of a cut). -/
def properSubsets (g : UnGraph) : List (List Nat) :=
  (List.range g.nodeCount).sublists.filter
    (fun p => !p.isEmpty && decide (p.length < g.nodeCount))

/-- The minimum cut weight of the graph (`none` when no cut exists, i.e.
fewer than 2 nodes). -/
def minCutWeight (g : UnGraph) : Option Nat :=
  ((properSubsets g).map (cutWeight g)).min?

/-- Modelled from the spec: the result contract of
`rustworkx_core::connectivity::stoer_wagner_min_cut` (external library code,
not in this repository), called with all edge weights 1. It returns `None`
for graphs with fewer than 2 nodes, and otherwise `Some((w, p))` where `p` is
one side of a partition realizing a minimum cut and `w` is that cut's weight. -/
def stoerWagnerOk (g : UnGraph) (res : Option (Nat × List Nat)) : Bool :=
  match res with
  | none => decide (g.nodeCount < 2)
  | some (w, p) =>
      (properSubsets g).contains p && decide (cutWeight g p = w)
        && decide (minCutWeight g = some w)

/-- `Day25::part_1` with the `stoer_wagner_min_cut` call abstracted into the
argument `res`: the `.unwrap()` on its `None` result and the failure of
`assert_eq!(min_cut, 3)` are modelled as `none`. -/
def part_1 (input : UnGraph) (res : Option (Nat × List Nat)) : Option Nat :=
  match res with
  | none => none
  | some (min_cut, partition) =>
      if min_cut = 3 then
        some (partition.length * (input.nodeCount - partition.length))
      else none

/-- `Day25::part_2` -/
def part_2 (input : UnGraph) : Nat := 0

end Day25

/-! ## Day 15 (`src/days/day15.rs`) -/

namespace Day15

open Nom

/-- `hash_string` over the UTF-8 bytes of the string:
`acc = ((acc + byte) * 17) % 256`, starting from 0. -/
def hash_string (bytes : List Nat) : Nat :=
  bytes.foldl (fun acc c => ((acc + c) * 17) % 256) 0

inductive Action
  | Remove
  | Add (focal : Nat)
deriving DecidableEq

structure Instruction where
  label : List Char
  box_id : Nat
  action : Action
deriving DecidableEq

structure Lens where
  label : List Char
  focal : Nat
deriving DecidableEq

/-- `Instruction::new`: `tuple((alpha1, one_of("-="), opt(u8)))` followed by
`.unwrap()` (modelled as `none`), then the action match (whose `'='` arm
unwraps the optional value and whose catch-all arm is `unimplemented!()`).
The label is ASCII (from `alpha1`), so its UTF-8 bytes are its char codes. -/
def instructionNew (input : List Char) : Option Instruction :=
  match alpha1 input with
  | none => none
  | some (label, r1) =>
    match oneOf ['-', '='] r1 with
    | none => none
    | some (action, r2) =>
      match opt u8P r2 with
      | none => none
      | some (value, _) =>
        let box_id := hash_string (label.map Char.toNat)
        if action = '-' then some ⟨label, box_id, Action.Remove⟩
        else if action = '=' then
          match value with
          | some v => some ⟨label, box_id, Action.Add v⟩
          | none => none
        else none

/-- `Day15::parse`: `separated_list1(char(','), map(many1(none_of("\n,")), collect))`. -/
def parse : Parser (List (List Char)) :=
  separatedList1 (charP ',') (pmap (many1 (noneOf ['\n', ','])) id)

/-- `Day15::part_1` (the parsed strings are ASCII by construction of `parse`
on the puzzle inputs, so their UTF-8 bytes are their char codes). -/
def part_1 (input : List (List Char)) : Nat :=
  (input.map (fun s => hash_string (s.map Char.toNat))).sum

/-- Replace the first lens with the given label (`iter_mut().find(..)` then
`*lens = ..`). -/
def replaceFirst : List Lens → List Char → Nat → List Lens
  | [], _, _ => []
  | l :: rest, lab, focal =>
    if l.label = lab then ⟨lab, focal⟩ :: rest
    else l :: replaceFirst rest lab focal

/-- One instruction of the `Day15::part_2` loop: `boxes.get_mut(instr.box_id)
.unwrap()` is modelled as `none` when the index is out of bounds. -/
def processInstr (boxes : List (List Lens)) (instr : Instruction) :
    Option (List (List Lens)) :=
  match boxes.get? instr.box_id with
  | none => none
  | some b =>
    let b2 :=
      match instr.action with
      | Action.Remove => b.filter (fun l => !decide (l.label = instr.label))
      | Action.Add focal =>
          if b.any (fun l => decide (l.label = instr.label)) then
            replaceFirst b instr.label focal
          else b ++ [⟨instr.label, focal⟩]
    some (boxes.set instr.box_id b2)

/-- The total focusing power computed at the end of `Day15::part_2`. -/
def focusingPower (boxes : List (List Lens)) : Nat :=
  (boxes.enum.map (fun bi =>
    (bi.2.enum.map (fun lj => (bi.1 + 1) * (lj.1 + 1) * lj.2.focal)).sum)).sum

/-- `Day15::part_2`: parse the instructions (a panic inside the `map` is
`none`), process them against 256 initially empty boxes, and sum the
focusing power. -/
def part_2 (input : List (List Char)) : Option Nat :=
  (mapOption instructionNew input).bind (fun instructions =>
    (foldlOption processInstr (List.replicate 256 []) instructions).map
      focusingPower)

end Day15

/-! ## A model of `itertools::Itertools::sorted_by` (a stable sort) -/

/-- Insert `x` after every element `y` with `le y x` (the insertion step of a
stable insertion sort: among elements that compare equal, earlier ones stay
earlier). -/
def insertLe (le : α → α → Bool) (x : α) : List α → List α
  | [] => [x]
  | y :: t => if le y x then y :: insertLe le x t else x :: y :: t

/-- Stable sort by the comparator `le` (`le a b` meaning `a` need not come
after `b`), modelling `itertools::sorted_by`. -/
def sortedBy (le : α → α → Bool) (l : List α) : List α :=
  l.foldl (fun acc x => insertLe le x acc) []

/-! ## Day 14 (`src/days/day14.rs`) -/

namespace Day14

/-- `Point` (BTreeMap keys are sorted by `y`, then `x`). -/
structure Point where
  y : Int
  x : Int
deriving DecidableEq

inductive Rock
  | Round
  | Cube
deriving DecidableEq

/-- The key order of the `BTreeMap<Point, Rock>`. -/
def Point.keyLt (a b : Point) : Bool :=
  decide (a.y < b.y) || (decide (a.y = b.y) && decide (a.x < b.x))

/-- The platform grid: `BTreeMap<Point, Rock>` as an association list kept
sorted by `Point.keyLt` with distinct keys (the operations below preserve
this, and `parse` produces such a list), so that Lean list equality
coincides with `BTreeMap` equality. -/
abbrev Grid : Type := List (Point × Rock)

structure Platform where
  grid : Grid
  width : Int
  height : Int
deriving DecidableEq

inductive Dir
  | North
  | East
  | South
  | West

/-- `BTreeMap::get` -/
def Grid.lookup (g : Grid) (p : Point) : Option Rock :=
  ((g : List (Point × Rock)).find? (fun e => decide (e.1 = p))).map (fun e => e.2)

/-- `BTreeMap::insert` on the sorted-association-list model. -/
def Grid.insert : Grid → Point → Rock → Grid
  | [], p, r => [(p, r)]
  | (q, s) :: t, p, r =>
    if p = q then (p, r) :: t
    else if Point.keyLt p q then (p, r) :: (q, s) :: t
    else (q, s) :: Grid.insert t p r

/-- `BTreeMap::remove` (the removal itself; the returned value is read with
`Grid.lookup`). -/
def Grid.erase : Grid → Point → Grid
  | [], _ => []
  | (q, s) :: t, p => if p = q then t else (q, s) :: Grid.erase t p

/-- `Platform::has_rock` -/
def has_rock (pl : Platform) (p : Point) : Option Rock := Grid.lookup pl.grid p

/-- `Platform::pos_load` -/
def pos_load (pl : Platform) (p : Point) (dir : Dir) : Int :=
  match dir with
  | Dir.North => pl.height - p.y
  | Dir.East => p.x + 1
  | Dir.South => p.y + 1
  | Dir.West => pl.width - p.x

/-- The `isize` range `a..b` as a list. -/
def intRange (a b : Int) : List Int := (List.range (b - a).toNat).map (fun k => a + k)

/-- `Platform::next_in_dir`: the last empty cell in the given direction
before a rock (or the border), defaulting to `start`. -/
def next_in_dir (pl : Platform) (start : Point) (dir : Dir) : Point :=
  let pos : List Point :=
    match dir with
    | Dir.North => ((intRange 0 start.y).reverse).map (fun y => ⟨y, start.x⟩)
    | Dir.East => (intRange (start.x + 1) pl.width).map (fun x => ⟨start.y, x⟩)
    | Dir.South => (intRange (start.y + 1) pl.height).map (fun y => ⟨y, start.x⟩)
    | Dir.West => ((intRange 0 start.x).reverse).map (fun x => ⟨start.y, x⟩)
  let empty_space := pos.takeWhile (fun p => (has_rock pl p).isNone)
  (empty_space.getLast?).getD start

/-- The comparator of the `sorted_by` in `move_rocks` (`le a b`: the
`Ordering` of `(a, b)` is not `Greater`); ties keep the `BTreeMap` iteration
order because the sort is stable. -/
def moveCmpLe (dir : Dir) (a b : Point × Rock) : Bool :=
  match dir with
  | Dir.North => decide (a.1.y ≤ b.1.y)
  | Dir.East => decide (b.1.x ≤ a.1.x)
  | Dir.South => decide (b.1.y ≤ a.1.y)
  | Dir.West => decide (a.1.x ≤ b.1.x)

/-- One iteration of the `move_rocks` loop: move the round rock at `pr.1` to
`next_in_dir` of the current grid; `self.grid.remove(&p).unwrap()` is `none`
when the key is absent (which never happens, the keys being pairwise
distinct and never removed before their turn). -/
def moveStep (pl : Platform) (dir : Dir) (g : Grid) (pr : Point × Rock) :
    Option Grid :=
  let new_p := next_in_dir { pl with grid := g } pr.1 dir
  match Grid.lookup g pr.1 with
  | none => none
  | some r => some (Grid.insert (Grid.erase g pr.1) new_p r)

/-- `Platform::move_rocks` -/
def move_rocks (pl : Platform) (dir : Dir) : Option Platform :=
  let rounds := sortedBy (moveCmpLe dir)
    ((pl.grid : List (Point × Rock)).filter (fun e => decide (e.2 = Rock.Round)))
  (foldlOption (moveStep pl dir) pl.grid rounds).map
    (fun g => { pl with grid := g })

/-- `Platform::total_load` -/
def total_load (pl : Platform) (dir : Dir) : Int :=
  ((pl.grid : List (Point × Rock)).filterMap (fun e =>
    match e.2 with
    | Rock.Round => some (pos_load pl e.1 dir)
    | Rock.Cube => none)).sum

/-- `Day14::part_1`: tilt a mutable copy north, then total north load. -/
def part_1 (input : Platform) : Option Int :=
  (move_rocks input Dir.North).map (fun p => total_load p Dir.North)

/-- One spin cycle of `Day14::part_2`: tilt North, West, South, East. -/
def spinCycle (pl : Platform) : Option Platform :=
  (move_rocks pl Dir.North).bind (fun a =>
    (move_rocks a Dir.West).bind (fun b =>
      (move_rocks b Dir.South).bind (fun c => move_rocks c Dir.East)))

/-- `n` spin cycles. -/
def spinIter : Nat → Platform → Option Platform
  | 0, pl => some pl
  | n + 1, pl => (spinCycle pl).bind (spinIter n)

/-- The comparator of the cache sort in `Day14::part_2` (descending by the
cached iteration index; the indices are pairwise distinct, so the arbitrary
`HashMap` iteration order is irrelevant). -/
def cacheLe (a b : Grid × Nat) : Bool := decide (b.2 ≤ a.2)

/-- The `for i in 0..` loop of `Day14::part_2`: spin once; on a cache hit at
index `j` (with `i - j` the period) restore the newest cached state whose
index is congruent to `(1_000_000_000 - 1) % (i - j)` and return the north
load; otherwise cache the state and continue. The source loop is unbounded;
`fuel` truncates it to a prescribed number of iterations, and `part_2` below
quantifies over the truncation. -/
def part2Go : Nat → List (Grid × Nat) → Nat → Platform → Option Int
  | 0, _, _, _ => none
  | fuel + 1, cache, i, pl =>
    match spinCycle pl with
    | none => none
    | some pl2 =>
      match cache.find? (fun e => decide (e.1 = pl2.grid)) with
      | some e =>
        let m := i - e.2
        let tgt := (1000000000 - 1) % m
        match (sortedBy cacheLe cache).find? (fun e2 => decide (e2.2 % m = tgt)) with
        | none => none
        | some e2 => some (total_load { pl2 with grid := e2.1 } Dir.North)
      | none => part2Go fuel ((pl2.grid, i) :: cache) (i + 1) pl2

/-- `Day14::part_2`. The source loop is unbounded, so the program's result is
modelled as a relation on its terminating runs: it returns `v` exactly when
the loop, given enough iterations of fuel, breaks with `v`. `part2Go` is
monotone in the fuel (`part2Go_mono` below), so at most one `v` satisfies
this, and a diverging run (no repetition is ever found) satisfies it for no
`v`. -/
def part_2 (input : Platform) (v : Int) : Prop :=
  ∃ fuel, part2Go fuel [] 0 input = some v

/-- `Day14::parse`: `separated_list0(line_ending, many1(one_of(".#O")))`,
then the grid is built row by row (insertion in key order keeps the
association list sorted); `elements.first().unwrap()` on an empty row list
is `none`. -/
def parse : Nom.Parser Platform := fun inp =>
  match Nom.separatedList0 Nom.lineEnding (Nom.many1 (Nom.oneOf ['.', '#', 'O'])) inp with
  | none => none
  | some (elements, rest) =>
    let grid : Grid := elements.enum.foldl (fun g yrow =>
      yrow.2.enum.foldl (fun g2 xe =>
        let point : Point := ⟨(yrow.1 : Int), (xe.1 : Int)⟩
        if xe.2 = '#' then Grid.insert g2 point Rock.Cube
        else if xe.2 = 'O' then Grid.insert g2 point Rock.Round
        else g2) g) []
    match elements.head? with
    | none => none
    | some row0 =>
        some (⟨grid, (row0.length : Int), (elements.length : Int)⟩, rest)

/-- The platform after `k` spin cycles, as a total function (meaningful
whenever `spinIter k pl` succeeds). -/
def stateAt (pl : Platform) (k : Nat) : Platform := (spinIter k pl).getD pl

/-- The cache contents at the start of loop iteration `n`: the grids after
cycles `n, n-1, ..., 1`, keyed (in value position) by their iteration
indices `n-1, ..., 0`, newest first. -/
def cacheAt (pl : Platform) (n : Nat) : List (Grid × Nat) :=
  ((List.range n).reverse).map (fun k => ((stateAt pl (k + 1)).grid, k))

end Day14

/-! ## The `Day` trait and `run_day` driver (`src/days/mod.rs`) -/

/-- The `Day` trait contract: a parser and the two part functions
(`Output1`/`Output2` are the associated output types). -/
structure DayImpl (I O1 O2 : Type) where
  parse : Nom.Parser I
  part_1 : I → O1
  part_2 : I → O2

/-- The observable output lines of `run_day`, in order (the timing lines,
which carry no data about the puzzle, are not modelled). -/
inductive RunEvent (O1 O2 : Type)
  | parseError
  | part1Out (v : O1)
  | part2Out (v : O2)
deriving DecidableEq

/-- `Day::run_day` on the contents of the input file: on a parse error print
the error and stop; otherwise print the part-1 answer, then compute and
print the part-2 answer, both applied to the value `parse` produced. -/
def runDay {I O1 O2 : Type} (d : DayImpl I O1 O2) (s : List Char) :
    List (RunEvent O1 O2) :=
  match d.parse s with
  | none => [RunEvent.parseError]
  | some (input, _) =>
      [RunEvent.part1Out (d.part_1 input), RunEvent.part2Out (d.part_2 input)]

/-- `run_day` instrumented with the input value each phase observes:
`(input seen by part_1, its result, input seen by part_2, its result)`.
`part_1` takes the input by shared reference and cannot modify it, so
`part_2` observes exactly the structure `parse` produced. -/
def runDayObserved {I O1 O2 : Type} (d : DayImpl I O1 O2) (s : List Char) :
    Option (I × O1 × I × O2) :=
  match d.parse s with
  | none => none
  | some (input, _) => some (input, d.part_1 input, input, d.part_2 input)

/-- Day 1 as an instance of the trait contract. -/
def day01Impl : DayImpl (List (List Char)) Nat Nat :=
  ⟨Day01.parse, Day01.part_1, Day01.part_2⟩

/-- Day 9 as an instance of the trait contract. -/
def day09Impl : DayImpl (List (List Int)) (Option Int) (Option Int) :=
  ⟨Day09.parse, Day09.part_1, Day09.part_2⟩

/-- Day 14 as an instance of the trait contract; the unbounded `part_2` loop
is represented by its fuel-truncated runs. -/
def day14Impl (fuel : Nat) : DayImpl Day14.Platform (Option Int) (Option Int) :=
  ⟨Day14.parse, Day14.part_1, fun pl => Day14.part2Go fuel [] 0 pl⟩

/-- Day 15 as an instance of the trait contract. -/
def day15Impl : DayImpl (List (List Char)) Nat (Option Nat) :=
  ⟨Day15.parse, Day15.part_1, Day15.part_2⟩

/-! ## Claim theorems that do not involve Day 14 -/

/-- C8: the embedded day-1 example assertions hold: `Day01::parse` succeeds
on the part-1 example and `part_1` of the parsed value is 142, and it
succeeds on the part-2 example with `part_2` equal to 281. -/
theorem day01_examples :
    (Day01.parse (Day01.exInput1.toList)).map (fun r => Day01.part_1 r.1) =
      some 142 ∧
    (Day01.parse (Day01.exInput2.toList)).map (fun r => Day01.part_2 r.1) =
      some 281 := by
  exact ⟨by decide, by decide⟩

/-- C1 counterexample: the input string `"5"` parses successfully for day 9
(to the single sensor line `[5]`), yet `Day09::part_1` panics on it: the
difference list of a one-element line is empty, hitting the
`unimplemented!("empty list")` branch of `extrapolate`. So it is not the
case that every successfully parsed input runs both parts without errors
beyond file-not-found and parse failures. -/
theorem day09_panics_on_parsed_input :
    Day09.parse ("5".toList) = some ([[5]], []) ∧
    Day09.part_1 [[5]] = none := by
  exact ⟨by decide, by decide⟩

/-- C1 amended: errors are not limited to file-not-found and parse failures:
`Day09::extrapolate` (hence both parts of day 9) panics via its
`unimplemented!("empty list")` branch on every sensor line with fewer than
two values, even though such lines parse successfully. -/
theorem day09_extrapolate_short_line_panics :
    ∀ (l : List Int) (part2 : Bool), l.length < 2 →
      Day09.extrapolate l part2 = none := by
  intro l part2 h
  match l, h with
  | [], _ => rfl
  | [a], _ =>
      simp [Day09.extrapolate, Day09.extrapolateGo, Day09.diffs]

/-- C1 witness for the amended claim, at the parsed line `[5]`. -/
theorem day09_extrapolate_short_line_panics_witness :
    Day09.extrapolate [5] true = none :=
  day09_extrapolate_short_line_panics [5] true (by decide)

/-- C3: `Day25::part_2` is unimplemented: it returns 0 on every parsed
input graph. -/
theorem day25_part2_is_constant_zero : ∀ g : Day25.UnGraph, Day25.part_2 g = 0 :=
  fun _ => rfl

/-- Closed form of `range_overlap`: the branches compute the intersection of
the closed intervals `[start, end]`. -/
theorem day05_range_overlap_eq (a b : Day05.Range64) :
    Day05.range_overlap a b =
      if a.«end» ≥ b.start ∧ a.start ≤ b.«end» then
        some ⟨max a.start b.start, min a.«end» b.«end»⟩
      else none := by
  obtain ⟨as, ae⟩ := a
  obtain ⟨bs, be⟩ := b
  unfold Day05.range_overlap
  dsimp only
  split_ifs <;>
    simp only [Option.some.injEq, Day05.Range64.mk.injEq] <;> omega

/-- C9: `Day05::range_overlap` treats its ranges as closed intervals: it
returns `Some` iff `a.end >= b.start` and `a.start <= b.end`; for adjacent
(well-formed) ranges with `a.end == b.start` it returns the empty range
`b.start..a.end` rather than `None`; and it is commutative. -/
theorem day05_range_overlap_spec :
    (∀ a b : Day05.Range64, (Day05.range_overlap a b).isSome ↔
        b.start ≤ a.«end» ∧ a.start ≤ b.«end») ∧
    (∀ a b : Day05.Range64, a.start ≤ a.«end» → b.start ≤ b.«end» →
        a.«end» = b.start →
        Day05.range_overlap a b = some ⟨b.start, a.«end»⟩) ∧
    (∀ a b : Day05.Range64, Day05.range_overlap a b = Day05.range_overlap b a) := by
  refine ⟨?_, ?_, ?_⟩
  · intro a b
    rw [day05_range_overlap_eq]
    split_ifs with h
    · simpa using ⟨h.1, h.2⟩
    · simpa using fun h1 h2 => h ⟨h1, h2⟩
  · intro a b h1 h2 h3
    rw [day05_range_overlap_eq, if_pos ⟨by omega, by omega⟩]
    simp only [Option.some.injEq, Day05.Range64.mk.injEq]
    omega
  · intro a b
    rw [day05_range_overlap_eq, day05_range_overlap_eq]
    by_cases h : a.«end» ≥ b.start ∧ a.start ≤ b.«end»
    · rw [if_pos h, if_pos ⟨h.2, h.1⟩]
      simp only [Option.some.injEq, Day05.Range64.mk.injEq]
      exact ⟨Nat.max_comm _ _, Nat.min_comm _ _⟩
    · rw [if_neg h, if_neg (fun hc => h ⟨hc.2, hc.1⟩)]

/-- C9 witness: the three parts at concrete ranges. -/
theorem day05_range_overlap_spec_witness :
    ((Day05.range_overlap ⟨1, 5⟩ ⟨3, 9⟩).isSome ↔ (3 ≤ 5 ∧ 1 ≤ 9)) ∧
    Day05.range_overlap ⟨1, 5⟩ ⟨5, 9⟩ = some ⟨5, 5⟩ ∧
    Day05.range_overlap ⟨1, 5⟩ ⟨3, 9⟩ = Day05.range_overlap ⟨3, 9⟩ ⟨1, 5⟩ :=
  ⟨day05_range_overlap_spec.1 ⟨1, 5⟩ ⟨3, 9⟩,
   day05_range_overlap_spec.2.1 ⟨1, 5⟩ ⟨5, 9⟩ (by decide) (by decide) (by decide),
   day05_range_overlap_spec.2.2 ⟨1, 5⟩ ⟨3, 9⟩⟩

/-- Graphs with fewer than two nodes admit no cut at all. -/
theorem day25_minCutWeight_none_of_small (g : Day25.UnGraph)
    (h : g.nodeCount < 2) : Day25.minCutWeight g = none := by
  obtain ⟨n, es⟩ := g
  simp only at h
  match n, h with
  | 0, _ => rfl
  | 1, _ => rfl

/-- C6: given the contract of `stoer_wagner_min_cut`, for every graph whose
minimum cut (unit weights) is exactly 3, `Day25::part_1` passes its
`assert_eq!(min_cut, 3)` and returns `|P| * (n - |P|)` for a side `P` of a
partition realizing a minimum cut. -/
theorem day25_part1_mincut :
    ∀ (g : Day25.UnGraph) (res : Option (Nat × List Nat)),
      Day25.stoerWagnerOk g res = true →
      Day25.minCutWeight g = some 3 →
      ∃ p, res = some (3, p) ∧ Day25.cutWeight g p = 3 ∧
        Day25.minCutWeight g = some (Day25.cutWeight g p) ∧
        Day25.part_1 g res = some (p.length * (g.nodeCount - p.length)) := by
  intro g res hok hmin
  match res with
  | none =>
      exfalso
      simp only [Day25.stoerWagnerOk, decide_eq_true_eq] at hok
      rw [day25_minCutWeight_none_of_small g hok] at hmin
      exact Option.noConfusion hmin
  | some (w, p) =>
      simp only [Day25.stoerWagnerOk, Bool.and_eq_true, decide_eq_true_eq] at hok
      obtain ⟨⟨_, hw⟩, hmw⟩ := hok
      rw [hmw] at hmin
      injection hmin with hw3
      subst hw3
      refine ⟨p, ?_, hw, ?_, ?_⟩
      · rfl
      · rw [hw]; exact hmw
      · simp [Day25.part_1]

/-- C6 witness: the two-node graph with three parallel edges has minimum cut
3, realized by the partition `[0]`; the library contract at that result is
checked by evaluation. -/
theorem day25_part1_mincut_witness :
    ∃ p, (some (3, [0]) : Option (Nat × List Nat)) = some (3, p) ∧
      Day25.cutWeight ⟨2, [(0, 1), (0, 1), (0, 1)]⟩ p = 3 ∧
      Day25.minCutWeight ⟨2, [(0, 1), (0, 1), (0, 1)]⟩ =
        some (Day25.cutWeight ⟨2, [(0, 1), (0, 1), (0, 1)]⟩ p) ∧
      Day25.part_1 ⟨2, [(0, 1), (0, 1), (0, 1)]⟩ (some (3, [0])) =
        some (p.length * (2 - p.length)) :=
  day25_part1_mincut ⟨2, [(0, 1), (0, 1), (0, 1)]⟩ (some (3, [0]))
    (by decide) (by decide)

/-- The folding step of `hash_string` stays below 256, so the hash does. -/
theorem day15_hash_fold_lt (bytes : List Nat) :
    ∀ acc : Nat, acc < 256 →
      bytes.foldl (fun acc c => ((acc + c) * 17) % 256) acc < 256 := by
  induction bytes with
  | nil => intro acc h; simpa using h
  | cons c rest ih =>
      intro acc _
      simp only [List.foldl_cons]
      exact ih _ (Nat.mod_lt _ (by norm_num))

/-- Every instruction built by `Instruction::new` carries a box id below 256. -/
theorem day15_instruction_box_id_lt (s : List Char) (i : Day15.Instruction)
    (h : Day15.instructionNew s = some i) : i.box_id < 256 := by
  unfold Day15.instructionNew at h
  repeat' split at h
  all_goals
    first
      | exact Option.noConfusion h
      | (injection h with h2; subst h2;
         exact day15_hash_fold_lt _ 0 (by norm_num))

/-- Members of a successful `mapOption` run come from successful calls. -/
theorem mapOption_mem {f : α → Option β} :
    ∀ {l : List α} {out : List β}, mapOption f l = some out →
      ∀ b ∈ out, ∃ a, f a = some b := by
  intro l
  induction l with
  | nil =>
      intro out h b hb
      simp only [mapOption] at h
      injection h with h
      subst h
      exact absurd hb (List.not_mem_nil b)
  | cons a rest ih =>
      intro out h b hb
      simp only [mapOption] at h
      split at h
      next b2 bs hfa hrest =>
        injection h with h
        subst h
        rcases List.mem_cons.mp hb with rfl | hb2
        · exact ⟨a, hfa⟩
        · exact ih hrest b hb2
      next => exact Option.noConfusion h

/-- Processing instructions whose box ids are all below 256 never panics and
keeps 256 boxes. -/
theorem day15_process_no_panic :
    ∀ (instrs : List Day15.Instruction) (boxes : List (List Day15.Lens)),
      boxes.length = 256 → (∀ i ∈ instrs, i.box_id < 256) →
      ∃ out, foldlOption Day15.processInstr boxes instrs = some out := by
  intro instrs
  induction instrs with
  | nil => intro boxes _ _; exact ⟨boxes, rfl⟩
  | cons i rest ih =>
      intro boxes hlen hids
      have hid : i.box_id < 256 := hids i (List.mem_cons_self i rest)
      have hlt : i.box_id < boxes.length := by omega
      obtain ⟨b, hb⟩ : ∃ b, boxes.get? i.box_id = some b :=
        ⟨boxes.get ⟨i.box_id, hlt⟩, List.get?_eq_get hlt⟩
      have hstep : ∃ b2, Day15.processInstr boxes i = some b2 ∧
          b2.length = 256 := by
        unfold Day15.processInstr
        rw [hb]
        exact ⟨_, rfl, by simpa using hlen⟩
      obtain ⟨b2, hb2, hlen2⟩ := hstep
      obtain ⟨out, hout⟩ :=
        ih b2 hlen2 (fun j hj => hids j (List.mem_cons_of_mem i hj))
      exact ⟨out, by simpa [foldlOption, hb2] using hout⟩

/-- C10: `hash_string` always yields a value below 256 (for every byte
sequence), and consequently `Day15::part_2` never fails its
`boxes.get_mut(instr.box_id).unwrap()`: whenever the instructions parse,
part 2 returns a value. -/
theorem day15_hash_lt_and_part2_total :
    (∀ bytes : List Nat, Day15.hash_string bytes < 256) ∧
    (∀ (input : List (List Char)) (instrs : List Day15.Instruction),
        mapOption Day15.instructionNew input = some instrs →
        ∃ v, Day15.part_2 input = some v) := by
  constructor
  · intro bytes
    exact day15_hash_fold_lt bytes 0 (by norm_num)
  · intro input instrs h
    have hids : ∀ i ∈ instrs, i.box_id < 256 := by
      intro i hi
      obtain ⟨s, hs⟩ := mapOption_mem h i hi
      exact day15_instruction_box_id_lt s i hs
    obtain ⟨out, hout⟩ :=
      day15_process_no_panic instrs (List.replicate 256 [])
        (List.length_replicate 256 []) hids
    refine ⟨Day15.focusingPower out, ?_⟩
    unfold Day15.part_2
    rw [h, Option.some_bind, hout, Option.map_some']

/-! ## Day 14: the cache-and-periodicity shortcut of `part_2` computes the
load after exactly 10^9 spin cycles (claim C2) -/

/-- Splitting a spin-cycle iteration. -/
theorem spinIter_add (m k : Nat) :
    ∀ pl, Day14.spinIter (m + k) pl = (Day14.spinIter m pl).bind (Day14.spinIter k) := by
  induction m with
  | zero => intro pl; rw [Nat.zero_add, Day14.spinIter, Option.some_bind]
  | succ m ih =>
      intro pl
      have hmk : m + 1 + k = (m + k) + 1 := by omega
      rw [hmk, Day14.spinIter, Day14.spinIter]
      cases Day14.spinCycle pl with
      | none => rfl
      | some a => rw [Option.some_bind, Option.some_bind, ih a]

/-- If `n` spin cycles succeed, so does every shorter run. -/
theorem spinIter_isSome_of_le {pl : Day14.Platform} {n : Nat}
    (h : (Day14.spinIter n pl).isSome) {m : Nat} (hm : m ≤ n) :
    (Day14.spinIter m pl).isSome := by
  have hsplit := spinIter_add m (n - m) pl
  rw [Nat.add_sub_cancel' hm] at hsplit
  cases hq : Day14.spinIter m pl with
  | some q => rfl
  | none => rw [hsplit, hq, Option.none_bind] at h; exact absurd h (by simp)

/-- A successful spin run equals `stateAt`. -/
theorem spinIter_eq_stateAt {pl : Day14.Platform} {k : Nat}
    (h : (Day14.spinIter k pl).isSome) :
    Day14.spinIter k pl = some (Day14.stateAt pl k) := by
  unfold Day14.stateAt
  cases hq : Day14.spinIter k pl with
  | some q => rfl
  | none => rw [hq] at h; exact absurd h (by simp)

/-- `move_rocks` only rearranges the grid: width and height are unchanged. -/
theorem move_rocks_dims {pl q : Day14.Platform} {d : Day14.Dir}
    (h : Day14.move_rocks pl d = some q) :
    q.width = pl.width ∧ q.height = pl.height := by
  unfold Day14.move_rocks at h
  obtain ⟨g, _, hq⟩ := Option.map_eq_some'.mp h
  rw [← hq]
  exact ⟨rfl, rfl⟩

/-- A spin cycle keeps the platform dimensions. -/
theorem spinCycle_dims {pl q : Day14.Platform}
    (h : Day14.spinCycle pl = some q) :
    q.width = pl.width ∧ q.height = pl.height := by
  unfold Day14.spinCycle at h
  obtain ⟨a, ha, h⟩ := Option.bind_eq_some.mp h
  obtain ⟨b, hb, h⟩ := Option.bind_eq_some.mp h
  obtain ⟨c, hc, h⟩ := Option.bind_eq_some.mp h
  obtain ⟨ha1, ha2⟩ := move_rocks_dims ha
  obtain ⟨hb1, hb2⟩ := move_rocks_dims hb
  obtain ⟨hc1, hc2⟩ := move_rocks_dims hc
  obtain ⟨hd1, hd2⟩ := move_rocks_dims h
  constructor <;> omega

/-- Iterated spin cycles keep the platform dimensions. -/
theorem spinIter_dims : ∀ (k : Nat) (pl q : Day14.Platform),
    Day14.spinIter k pl = some q → q.width = pl.width ∧ q.height = pl.height := by
  intro k
  induction k with
  | zero =>
      intro pl q h
      rw [Day14.spinIter] at h
      injection h with h
      rw [← h]; exact ⟨rfl, rfl⟩
  | succ k ih =>
      intro pl q h
      rw [Day14.spinIter] at h
      obtain ⟨a, ha, hq⟩ := Option.bind_eq_some.mp h
      obtain ⟨h1, h2⟩ := spinCycle_dims ha
      obtain ⟨h3, h4⟩ := ih a q hq
      constructor <;> omega

/-- Two reachable states with equal grids are equal platforms. -/
theorem stateAt_eq_of_grid_eq {pl : Day14.Platform} {k1 k2 : Nat}
    (h1 : (Day14.spinIter k1 pl).isSome) (h2 : (Day14.spinIter k2 pl).isSome)
    (hg : (Day14.stateAt pl k1).grid = (Day14.stateAt pl k2).grid) :
    Day14.stateAt pl k1 = Day14.stateAt pl k2 := by
  have e1 := spinIter_eq_stateAt h1
  have e2 := spinIter_eq_stateAt h2
  obtain ⟨w1, hh1⟩ := spinIter_dims k1 pl _ e1
  obtain ⟨w2, hh2⟩ := spinIter_dims k2 pl _ e2
  cases hs1 : Day14.stateAt pl k1 with
  | mk g1 wd1 ht1 =>
    cases hs2 : Day14.stateAt pl k2 with
    | mk g2 wd2 ht2 =>
      rw [hs1, hs2] at hg
      rw [hs1] at w1 hh1
      rw [hs2] at w2 hh2
      simp only at hg w1 w2 hh1 hh2
      subst hg
      obtain rfl : wd1 = wd2 := by omega
      obtain rfl : ht1 = ht2 := by omega
      rfl

/-- `find?` over the reversed range hits the largest index satisfying the
predicate. -/
theorem find?_rangeRev_of_max {α : Type} {g : Nat → α} {p : α → Bool} :
    ∀ {n k : Nat}, k < n → p (g k) = true →
      (∀ m, k < m → m < n → p (g m) = false) →
      (((List.range n).reverse).map g).find? p = some (g k) := by
  intro n
  induction n with
  | zero => intro k hk; omega
  | succ n ih =>
      intro k hk hpk habove
      rw [List.range_succ, List.reverse_append, List.reverse_singleton,
        List.singleton_append, List.map_cons]
      rcases Nat.lt_or_ge k n with hlt | hge
      · rw [List.find?_cons_of_neg _
          (by rw [habove n hlt (Nat.lt_succ_self n)]; exact Bool.false_ne_true)]
        exact ih hlt hpk (fun m h1 h2 => habove m h1 (Nat.lt_succ_of_lt h2))
      · have hkn : k = n := by omega
        subst hkn
        exact List.find?_cons_of_pos _ hpk

/-- `find?` over the reversed range misses when no index satisfies the
predicate. -/
theorem find?_rangeRev_none {α : Type} {g : Nat → α} {p : α → Bool} :
    ∀ {n : Nat}, (∀ m, m < n → p (g m) = false) →
      (((List.range n).reverse).map g).find? p = none := by
  intro n
  induction n with
  | zero => intro; rfl
  | succ n ih =>
      intro h
      rw [List.range_succ, List.reverse_append, List.reverse_singleton,
        List.singleton_append, List.map_cons,
        List.find?_cons_of_neg _
          (by rw [h n (Nat.lt_succ_self n)]; exact Bool.false_ne_true)]
      exact ih (fun m hm => h m (Nat.lt_succ_of_lt hm))

/-- Inserting a maximal element appends it. -/
theorem insertLe_append {α : Type} {le : α → α → Bool} {x : α} :
    ∀ {l : List α}, (∀ y ∈ l, le y x = true) → insertLe le x l = l ++ [x] := by
  intro l
  induction l with
  | nil => intro; rfl
  | cons y t ih =>
      intro h
      rw [insertLe, if_pos (h y (List.mem_cons_self y t)), List.cons_append,
        ih (fun z hz => h z (List.mem_cons_of_mem y hz))]

/-- A stable insertion sort leaves an already sorted list unchanged. -/
theorem sortedBy_eq_self {α : Type} {le : α → α → Bool} :
    ∀ {l : List α}, l.Pairwise (fun a b => le a b = true) → sortedBy le l = l := by
  intro l
  induction l using List.reverseRecOn with
  | nil => intro; rfl
  | append_singleton l x ih =>
      intro h
      rw [List.pairwise_append] at h
      obtain ⟨hl, _, hcross⟩ := h
      have : sortedBy le (l ++ [x]) = insertLe le x (sortedBy le l) := by
        rw [sortedBy, sortedBy, List.foldl_append, List.foldl_cons, List.foldl_nil]
      rw [this, ih hl, insertLe_append (fun y hy => hcross y hy x (List.mem_singleton_self x))]

/-- The cache is already sorted by descending iteration index. -/
theorem cacheAt_sorted (pl : Day14.Platform) (n : Nat) :
    sortedBy Day14.cacheLe (Day14.cacheAt pl n) = Day14.cacheAt pl n := by
  apply sortedBy_eq_self
  unfold Day14.cacheAt
  rw [List.pairwise_map, List.pairwise_reverse]
  have := List.pairwise_lt_range n
  refine this.imp ?_
  intro a b hab
  simp only [Day14.cacheLe, decide_eq_true_eq]
  omega

/-- Unfolding the cache one iteration. -/
theorem cacheAt_succ (pl : Day14.Platform) (n : Nat) :
    Day14.cacheAt pl (n + 1) =
      ((Day14.stateAt pl (n + 1)).grid, n) :: Day14.cacheAt pl n := by
  unfold Day14.cacheAt
  rw [List.range_succ, List.reverse_append, List.reverse_singleton,
    List.singleton_append, List.map_cons]

/-- Equality of platforms componentwise. -/
theorem platform_ext {s t : Day14.Platform} (h1 : s.grid = t.grid)
    (h2 : s.width = t.width) (h3 : s.height = t.height) : s = t := by
  cases s
  cases t
  simp only at h1 h2 h3
  subst h1
  subst h2
  subst h3
  rfl

/-- The cached shortcut agrees with the naive reference whenever a repeated
configuration occurs within the 1,000,000,000 simulated spin cycles: if the
states after `j+1` and `i+1` cycles coincide for some `j < i ≤ 10^9`, then
the loop terminates and returns the north-direction total load of the
platform after exactly 1,000,000,000 spin cycles. (This is the provable
regime of claim C2: for platforms whose first repetition begins only after
the 10^9-cycle horizon — which requires more than 10^9 pairwise distinct
reachable grids — the restore step picks a cycle state distinct from the
10^9-cycle state, and no such platform is concretely constructible, so the
unbounded claim is left unresolved.) -/
theorem day14_part2_within_horizon (pl : Day14.Platform) (i j : Nat) (hji : j < i)
    (hiB : i ≤ 1000000000)
    (hsome : (Day14.spinIter (i + 1) pl).isSome)
    (hrep : Day14.spinIter (j + 1) pl = Day14.spinIter (i + 1) pl) :
    ∃ q, Day14.spinIter 1000000000 pl = some q ∧
      Day14.part_2 pl (Day14.total_load q Day14.Dir.North) := by
  classical
  have hall : ∀ k, k ≤ i + 1 → Day14.spinIter k pl = some (Day14.stateAt pl k) :=
    fun k hk => spinIter_eq_stateAt (spinIter_isSome_of_le hsome hk)
  have hstep : ∀ k, k + 1 ≤ i + 1 →
      Day14.spinCycle (Day14.stateAt pl k) = some (Day14.stateAt pl (k + 1)) := by
    intro k hk
    have h1 := hall k (by omega)
    have h2 := hall (k + 1) hk
    have hs := spinIter_add k 1 pl
    rw [h1, Option.some_bind] at hs
    have h3 : Day14.spinIter 1 (Day14.stateAt pl k) =
        Day14.spinCycle (Day14.stateAt pl k) := by
      rw [Day14.spinIter]
      cases Day14.spinCycle (Day14.stateAt pl k) with
      | none => rfl
      | some a => rw [Option.some_bind, Day14.spinIter]
    rw [h3] at hs
    rw [← hs, h2]
  haveI hdec : DecidablePred (fun n => ∃ j2, j2 < n ∧
      Day14.spinIter (j2 + 1) pl = Day14.spinIter (n + 1) pl) := by
    intro n
    apply decidable_of_iff (∃ j2 ∈ List.range n,
      Day14.spinIter (j2 + 1) pl = Day14.spinIter (n + 1) pl)
    simp [List.mem_range]
  have hex : ∃ n, ∃ j2, j2 < n ∧
      Day14.spinIter (j2 + 1) pl = Day14.spinIter (n + 1) pl := ⟨i, j, hji, hrep⟩
  obtain ⟨j0, hj0i, hj0rep⟩ := Nat.find_spec hex
  have hi0le : Nat.find hex ≤ i := Nat.find_le ⟨j, hji, hrep⟩
  set i0 := Nat.find hex with hi0def
  have hmin : ∀ n, n < i0 → ¬ ∃ j2, j2 < n ∧
      Day14.spinIter (j2 + 1) pl = Day14.spinIter (n + 1) pl :=
    fun n hn => Nat.find_min hex hn
  set m := i0 - j0 with hmdef
  have hmpos : 0 < m := by omega
  -- distinctness of the cached grids below the first repetition
  have hQne : ∀ k2 n2, k2 < n2 → n2 < i0 →
      (Day14.stateAt pl (k2 + 1)).grid = (Day14.stateAt pl (n2 + 1)).grid →
      False := by
    intro k2 n2 hk2 hn2 hg
    have hs1 : k2 + 1 ≤ i + 1 := by omega
    have hs2 : n2 + 1 ≤ i + 1 := by omega
    have heqs : Day14.stateAt pl (k2 + 1) = Day14.stateAt pl (n2 + 1) :=
      stateAt_eq_of_grid_eq (spinIter_isSome_of_le hsome hs1)
        (spinIter_isSome_of_le hsome hs2) hg
    exact hmin n2 hn2 ⟨k2, hk2, by rw [hall _ hs1, hall _ hs2, heqs]⟩
  have hj0eq : Day14.stateAt pl (j0 + 1) = Day14.stateAt pl (i0 + 1) := by
    have h1 := hall (j0 + 1) (by omega)
    have h2 := hall (i0 + 1) (by omega)
    rw [h1, h2] at hj0rep
    injection hj0rep
  have hQj0 : (Day14.stateAt pl (j0 + 1)).grid =
      (Day14.stateAt pl (i0 + 1)).grid := by rw [hj0eq]
  have hQne2 : ∀ mm, j0 < mm → mm < i0 →
      (Day14.stateAt pl (mm + 1)).grid = (Day14.stateAt pl (i0 + 1)).grid →
      False := by
    intro mm h1 h2 hg
    exact hQne j0 mm h1 h2 (hQj0.trans hg.symm)
  -- the cached index the shortcut restores
  set kstar := j0 + (1000000000 - 1 - j0) % m with hkstardef
  have hrlt : (1000000000 - 1 - j0) % m < m := Nat.mod_lt _ hmpos
  have hkstar_lt : kstar < i0 := by omega
  have hkmod : kstar % m = (1000000000 - 1) % m := by
    have h3 := Nat.ModEq.add_left j0 (Nat.mod_modEq (1000000000 - 1 - j0) m)
    have h2 : j0 + (1000000000 - 1 - j0) = 1000000000 - 1 := by omega
    unfold Nat.ModEq at h3
    rw [h2] at h3
    exact h3
  have huniq : ∀ mm, kstar < mm → mm < i0 →
      mm % m = (1000000000 - 1) % m → False := by
    intro mm h1 h2 heq
    have hmod : Nat.ModEq m kstar mm := by
      unfold Nat.ModEq
      rw [hkmod, heq]
    have hdvd : m ∣ mm - kstar := (Nat.modEq_iff_dvd' (le_of_lt h1)).mp hmod
    have hle : m ≤ mm - kstar := Nat.le_of_dvd (by omega) hdvd
    omega
  -- periodicity of the spin iteration beyond the cycle entry
  have hper : ∀ t, Day14.spinIter (j0 + 1 + t) pl =
      Day14.spinIter (j0 + 1 + t % m) pl := by
    intro t
    induction t using Nat.strong_induction_on with
    | _ t ih =>
      rcases Nat.lt_or_ge t m with hsm | hsm
      · rw [Nat.mod_eq_of_lt hsm]
      · have e1 : j0 + 1 + t = (j0 + 1 + m) + (t - m) := by omega
        have e2 : j0 + 1 + m = i0 + 1 := by omega
        have e3 : (t - m) % m = t % m := by
          conv_rhs => rw [show t = m + (t - m) from by omega]
          rw [Nat.add_mod_left]
        rw [e1, spinIter_add, e2, ← hj0rep, ← spinIter_add, ih (t - m) (by omega), e3]
  have h1B : Day14.spinIter 1000000000 pl = Day14.spinIter (kstar + 1) pl := by
    have h0 : (1000000000 : Nat) = j0 + 1 + (1000000000 - 1 - j0) := by omega
    have h4 : j0 + 1 + (1000000000 - 1 - j0) % m = kstar + 1 := by omega
    rw [h0, hper, h4]
  -- marching the part_2 loop to the breaking iteration
  have march : ∀ d n fuel, n + d = i0 → d < fuel →
      Day14.part2Go fuel (Day14.cacheAt pl n) n (Day14.stateAt pl n) =
        some (Day14.total_load (Day14.stateAt pl (kstar + 1)) Day14.Dir.North) := by
    intro d
    induction d with
    | zero =>
        intro n fuel hn hf
        obtain rfl : n = i0 := by omega
        obtain ⟨f, rfl⟩ : ∃ f, fuel = f + 1 := ⟨fuel - 1, by omega⟩
        have hspin := hstep i0 (by omega)
        have hfind1 : (Day14.cacheAt pl i0).find?
            (fun e => decide (e.1 = (Day14.stateAt pl (i0 + 1)).grid)) =
            some ((Day14.stateAt pl (j0 + 1)).grid, j0) := by
          unfold Day14.cacheAt
          exact find?_rangeRev_of_max hj0i (by simp [hQj0])
            (fun mm h1 h2 => decide_eq_false (hQne2 mm h1 h2))
        have hfind2 : (Day14.cacheAt pl i0).find?
            (fun e2 => decide (e2.2 % (i0 - j0) = (1000000000 - 1) % (i0 - j0))) =
            some ((Day14.stateAt pl (kstar + 1)).grid, kstar) := by
          unfold Day14.cacheAt
          refine find?_rangeRev_of_max hkstar_lt ?_ ?_
          · simp only [decide_eq_true_eq]
            rw [← hmdef]
            exact hkmod
          · intro mm h1 h2
            apply decide_eq_false
            rw [← hmdef]
            exact fun h => huniq mm h1 h2 h
        have hrestored :
            { Day14.stateAt pl (i0 + 1) with
                grid := (Day14.stateAt pl (kstar + 1)).grid } =
              Day14.stateAt pl (kstar + 1) := by
          obtain ⟨hw1, hh1⟩ := spinIter_dims (i0 + 1) pl _ (hall (i0 + 1) (by omega))
          obtain ⟨hw2, hh2⟩ := spinIter_dims (kstar + 1) pl _ (hall (kstar + 1) (by omega))
          exact platform_ext rfl (by rw [hw1, hw2]) (by rw [hh1, hh2])
        simp only [Day14.part2Go, hspin, hfind1, cacheAt_sorted, hfind2, hrestored]
    | succ d ih =>
        intro n fuel hn hf
        obtain ⟨f, rfl⟩ : ∃ f, fuel = f + 1 := ⟨fuel - 1, by omega⟩
        have hni : n < i0 := by omega
        have hspin := hstep n (by omega)
        have hfindnone : (Day14.cacheAt pl n).find?
            (fun e => decide (e.1 = (Day14.stateAt pl (n + 1)).grid)) = none := by
          unfold Day14.cacheAt
          exact find?_rangeRev_none
            (fun mm hmm2 => decide_eq_false (hQne mm n hmm2 hni))
        have hrec := ih (n + 1) f (by omega) (by omega)
        rw [cacheAt_succ] at hrec
        simp only [Day14.part2Go, hspin, hfindnone]
        exact hrec
  have hfinal := march i0 0 (1000000000 + 2) (by omega) (by omega)
  have h0cache : Day14.cacheAt pl 0 = [] := rfl
  have h0state : Day14.stateAt pl 0 = pl := rfl
  rw [h0cache, h0state] at hfinal
  refine ⟨Day14.stateAt pl (kstar + 1), ?_, ?_⟩
  · rw [h1B]
    exact hall (kstar + 1) (by omega)
  · exact ⟨1000000000 + 2, hfinal⟩

/-- The within-horizon equivalence at a concrete platform: the 1-by-1 empty
platform is a fixed point of the spin cycle, so a repetition occurs
immediately. -/
theorem day14_part2_within_horizon_example :
    ∃ q, Day14.spinIter 1000000000 ⟨[], 1, 1⟩ = some q ∧
      Day14.part_2 ⟨[], 1, 1⟩ (Day14.total_load q Day14.Dir.North) :=
  day14_part2_within_horizon ⟨[], 1, 1⟩ 1 0 (by decide) (by norm_num)
    (by decide) (by decide)

/-- C10 witness: the hash bound at a concrete byte string and part-2 totality
at the concrete parsed input `["rn=1"]`. -/
theorem day15_hash_lt_and_part2_total_witness :
    Day15.hash_string [114, 110] < 256 ∧
    ∃ v, Day15.part_2 [("rn=1".toList)] = some v :=
  ⟨day15_hash_lt_and_part2_total.1 [114, 110],
   day15_hash_lt_and_part2_total.2 [("rn=1".toList)]
     [⟨("rn".toList), 0, Day15.Action.Add 1⟩] (by decide)⟩

/-- C7: `run_day` is the linear sequence read → parse → compute → print:
when parsing fails it prints the error and produces neither part answer;
when parsing succeeds it prints the part-1 answer before the part-2
answer, both computed from the parsed value. -/
theorem run_day_linear {I O1 O2 : Type} (d : DayImpl I O1 O2) (s : List Char) :
    (d.parse s = none → runDay d s = [RunEvent.parseError]) ∧
    (∀ inp rest, d.parse s = some (inp, rest) →
      runDay d s =
        [RunEvent.part1Out (d.part_1 inp), RunEvent.part2Out (d.part_2 inp)]) := by
  constructor
  · intro h
    unfold runDay
    rw [h]
  · intro inp rest h
    unfold runDay
    rw [h]

/-- C7 witness: day 15 rejects the empty input (its parser needs at least
one character), and day 1 on `"1a"` prints part 1 then part 2. -/
theorem run_day_linear_witness :
    runDay day15Impl [] = [RunEvent.parseError] ∧
    runDay day01Impl ("1a".toList) =
      [RunEvent.part1Out (day01Impl.part_1 [['1', 'a']]),
       RunEvent.part2Out (day01Impl.part_2 [['1', 'a']])] :=
  ⟨(run_day_linear day15Impl []).1 (by decide),
   (run_day_linear day01Impl ("1a".toList)).2 [['1', 'a']] [] (by decide)⟩

/-- C5: the part functions never modify the parsed input: in `run_day`,
`part_1` and `part_2` both observe exactly the structure `parse` produced
(`part_2` sees it unchanged after `part_1` ran); the one day that needs
mutation, Day 14, operates on a copy: its `part_1` is the load of the
tilted clone, a function of the unchanged input. -/
theorem parts_do_not_modify_input :
    (∀ {I O1 O2 : Type} (d : DayImpl I O1 O2) (s : List Char) (inp : I)
        (rest : List Char), d.parse s = some (inp, rest) →
      runDayObserved d s = some (inp, d.part_1 inp, inp, d.part_2 inp)) ∧
    (∀ pl : Day14.Platform,
      Day14.part_1 pl = (Day14.move_rocks pl Day14.Dir.North).map
        (fun p => Day14.total_load p Day14.Dir.North)) := by
  constructor
  · intro I O1 O2 d s inp rest h
    unfold runDayObserved
    rw [h]
  · intro pl
    rfl

/-- C5 witness: the instrumented driver at a concrete day-1 input. -/
theorem parts_do_not_modify_input_witness :
    runDayObserved day01Impl ("1a".toList) =
      some ([['1', 'a']], day01Impl.part_1 [['1', 'a']], [['1', 'a']],
        day01Impl.part_2 [['1', 'a']]) :=
  parts_do_not_modify_input.1 day01Impl ("1a".toList) [['1', 'a']] []
    (by decide)

end Aoc2023
